import Mathlib

/-!
Verification of the bilingual FAQ retrieval engine:
`backend/build_vector_db.py` (VectorDBBuilder.build_index) and
`backend/vector_search.py` (VectorSearch.__init__ / search / get_context_for_llm).

Embedding vectors are modelled as lists of integers and similarity scores as
rationals; the external embedding provider is an abstract function
`String → Vec` passed as a parameter.  The FAISS `IndexFlatL2` structure is
modelled by exact k-nearest-neighbour search under squared Euclidean distance:
candidates sorted in ascending distance order (ties broken by insertion id),
truncated to k, and padded with sentinel label `-1` and distance `FLT_MAX`
when the index holds fewer than k vectors, which is FAISS's documented
behaviour.  Python dictionaries are association lists (a missing key is a
`KeyError`), and Python list indexing allows negative indices counting from
the end.
-/

namespace EVFaq

/-- An embedding vector (FAISS stores float32 rows; we model exact values). -/
abbrev Vec := List Int

/-- One metadata record, as built by `build_index`:
`{'id': …, 'category': …, 'language': …, 'question': …, 'answer': …}`. -/
structure FaqMeta where
  id : String
  category : String
  language : String
  question : String
  answer : String
deriving DecidableEq

/-- One row of the list returned by `VectorSearch.search`. -/
structure SearchResult where
  category : String
  question : String
  answer : String
  language : String
  similarity_score : Rat
deriving DecidableEq

/-- The in-memory state of a loaded engine: the FAISS vectors and the
pickled metadata list, in storage order. -/
structure IndexState where
  vectors : List Vec
  metadata : List FaqMeta
deriving DecidableEq

/-- Python list indexing `l[i]`: nonnegative indices from the front,
negative indices from the end (`l[-1]` is the last element); out of range
is an `IndexError`, modelled as `none`. -/
def pyGet {α : Type} (l : List α) (i : Int) : Option α :=
  if 0 ≤ i then l.get? i.toNat
  else if (-i).toNat ≤ l.length then l.get? (l.length - (-i).toNat)
  else none

/-- Squared Euclidean distance between two vectors (the metric of
`faiss.IndexFlatL2`). -/
def sqDist (u v : Vec) : Int :=
  ((u.zip v).map (fun p => (p.1 - p.2) ^ 2)).sum

/-- The distance FAISS reports for padded (absent) neighbour slots:
`FLT_MAX = (2^24 - 1) * 2^104`. -/
def padDist : Int := (2 ^ 24 - 1) * 2 ^ 104

/-- `(distance, label)` pairs of every stored vector against query `q`,
labels assigned in insertion order starting at `i`. -/
def distPairsAux (q : Vec) : Nat → List Vec → List (Int × Int)
  | _, [] => []
  | i, v :: rest => (sqDist q v, (i : Int)) :: distPairsAux q (i + 1) rest

/-- `(distance, label)` pairs of every stored vector against query `q`. -/
def distPairs (vecs : List Vec) (q : Vec) : List (Int × Int) :=
  distPairsAux q 0 vecs

/-- Candidate ordering: ascending distance, ties broken by ascending label. -/
def candLE (a b : Int × Int) : Prop :=
  a.1 < b.1 ∨ (a.1 = b.1 ∧ a.2 ≤ b.2)

instance : DecidableRel candLE := fun a b => by
  unfold candLE; infer_instance

instance : IsTotal (Int × Int) candLE :=
  ⟨fun a b => by unfold candLE; omega⟩

instance : IsTrans (Int × Int) candLE :=
  ⟨fun a b c hab hbc => by unfold candLE at *; omega⟩

/-- `index.search(q, k)` on `faiss.IndexFlatL2`: the `k` nearest stored
vectors as `(distance, label)` in ascending-distance order; when fewer than
`k` vectors are stored, the remaining slots are padded with label `-1` and
distance `FLT_MAX`. -/
def kNearest (vecs : List Vec) (q : Vec) (k : Nat) : List (Int × Int) :=
  (List.insertionSort candLE (distPairs vecs q)).take k ++
    List.replicate (k - vecs.length) (padDist, -1)

/-- The result row built from a metadata record and a reported distance:
`similarity_score = 1 / (1 + dist)`. -/
def mkResult (faq : FaqMeta) (dist : Int) : SearchResult :=
  ⟨faq.category, faq.question, faq.answer, faq.language, 1 / (1 + (dist : Rat))⟩

/-- The result-collection loop of `VectorSearch.search`, lines 69–88:
for each `(dist, idx)` candidate, if `idx < len(metadata)` resolve
`metadata[idx]` (Python indexing, so `-1` resolves to the last record),
skip it when a nonempty language filter disagrees, otherwise append the
row and break once `top_k` rows have been kept.  `remaining` is
`top_k - len(results)`. -/
def searchLoop (mdata : List FaqMeta) (language : String) :
    Nat → List (Int × Int) → List SearchResult
  | _, [] => []
  | remaining, (dist, idx) :: rest =>
    if idx < (mdata.length : Int) then
      match pyGet mdata idx with
      | some faq =>
        if language ≠ "" ∧ faq.language ≠ language then
          searchLoop mdata language remaining rest
        else if remaining ≤ 1 then [mkResult faq dist]
        else mkResult faq dist :: searchLoop mdata language (remaining - 1) rest
      | none => searchLoop mdata language remaining rest
    else searchLoop mdata language remaining rest

/-- `VectorSearch.search(query, language, top_k)`: embed the query, fetch
`top_k * 2` nearest candidates from FAISS, and run the filter loop. -/
def search (st : IndexState) (embed : String → Vec) (query : String)
    (language : String) (top_k : Nat) : List SearchResult :=
  searchLoop st.metadata language top_k
    (kNearest st.vectors (embed query) (top_k * 2))

/-! ### The builder (`VectorDBBuilder.build_index`) -/

/-- A raw FAQ entry as parsed from `faq_data.json`: a Python dict from
field names to strings, modelled as an association list. -/
abbrev RawFaq := List (String × String)

/-- Python `faq[key]`: first binding wins; a missing key is a `KeyError`. -/
def dictGet (faq : RawFaq) (key : String) : Option String :=
  (faq.find? (fun p => p.1 == key)).map Prod.snd

/-- Errors a build run can end with (`faq[key]` raising `KeyError`). -/
inductive BuildError where
  | keyError (key : String)
deriving DecidableEq

/-- The per-entry work of `build_index`, lines 46–69: embed
`f"{question_en} {answer_en}"`, record the English metadata, then the same
for Hindi.  Field accesses happen in source order, so the first missing
key (in that order) is the one reported. -/
def buildEntry (embed : String → Vec) (faq : RawFaq) :
    Except BuildError (Vec × FaqMeta × Vec × FaqMeta) :=
  match dictGet faq "question_en" with
  | none => .error (.keyError "question_en")
  | some qe =>
    match dictGet faq "answer_en" with
    | none => .error (.keyError "answer_en")
    | some ae =>
      match dictGet faq "id" with
      | none => .error (.keyError "id")
      | some fid =>
        match dictGet faq "category" with
        | none => .error (.keyError "category")
        | some cat =>
          match dictGet faq "question_hi" with
          | none => .error (.keyError "question_hi")
          | some qh =>
            match dictGet faq "answer_hi" with
            | none => .error (.keyError "answer_hi")
            | some ah =>
              .ok (embed (qe ++ " " ++ ae), ⟨fid, cat, "en", qe, ae⟩,
                embed (qh ++ " " ++ ah), ⟨fid, cat, "hi", qh, ah⟩)

/-- `VectorDBBuilder.build_index`: process the corpus in order, appending
per entry the English vector and metadata and then the Hindi ones; the
first `KeyError` aborts the build with nothing written. -/
def build_index (embed : String → Vec) : List RawFaq → Except BuildError IndexState
  | [] => .ok ⟨[], []⟩
  | faq :: rest =>
    match buildEntry embed faq with
    | .error e => .error e
    | .ok (ev, em, hv, hm) =>
      match build_index embed rest with
      | .error e => .error e
      | .ok st => .ok ⟨ev :: hv :: st.vectors, em :: hm :: st.metadata⟩

/-! ### Loading (`VectorSearch.__init__`) -/

/-- The index directory: `faqs.index` and `metadata.pkl`, each possibly
absent. -/
structure IndexDir where
  indexFile : Option (List Vec)
  metadataFile : Option (List FaqMeta)

/-- Errors at load time: `FileNotFoundError` for a missing artifact
(raised explicitly for `faqs.index`, and by `open` for `metadata.pkl`). -/
inductive LoadError where
  | indexNotFound
deriving DecidableEq

/-- `VectorSearch.__init__`, lines 28–37: check `faqs.index` exists, read
it, then open `metadata.pkl` (which raises `FileNotFoundError` if
absent). -/
def loadEngine (d : IndexDir) : Except LoadError IndexState :=
  match d.indexFile with
  | none => .error .indexNotFound
  | some vecs =>
    match d.metadataFile with
    | none => .error .indexNotFound
    | some ms => .ok ⟨vecs, ms⟩

/-! ### Prompt formatting (`VectorSearch.get_context_for_llm`) -/

/-- Two-digit rendering of a number below 100. -/
def pad2 (n : Nat) : String :=
  if n < 10 then "0" ++ toString n else toString n

/-- Round-half-to-even, as Python `format` does at a decimal position. -/
def halfEvenRound (q : Rat) : Int :=
  let f := q.floor
  let fr := q - f
  if fr < 1 / 2 then f
  else if 1 / 2 < fr then f + 1
  else if f % 2 = 0 then f else f + 1

/-- Python `f"{x:.2f}"` for a nonnegative score: two decimal places. -/
def formatScore (q : Rat) : String :=
  let n := halfEvenRound (q * 100)
  toString (n / 100) ++ "." ++ pad2 (n % 100).toNat

/-- Python `sep.join(parts)`. -/
def joinSep (sep : String) : List String → String
  | [] => ""
  | [s] => s
  | s :: rest => s ++ sep ++ joinSep sep rest

/-- The four lines appended to `context_parts` for the `i`-th (1-based)
result, lines 111–114. -/
def blockParts (i : Nat) (r : SearchResult) : List String :=
  ["\n" ++ toString i ++ ". Category: " ++ r.category,
    "   Q: " ++ r.question,
    "   A: " ++ r.answer,
    "   (Relevance: " ++ formatScore r.similarity_score ++ ")"]

/-- All parts contributed by `enumerate(results, 1)`. -/
def renderBlocks : Nat → List SearchResult → List String
  | _, [] => []
  | i, r :: rest => blockParts i r ++ renderBlocks (i + 1) rest

/-- `VectorSearch.get_context_for_llm`: run `search` with the same
arguments; on an empty result return the sentinel, otherwise join the
header and all blocks with newlines. -/
def get_context_for_llm (st : IndexState) (embed : String → Vec)
    (query : String) (language : String) (top_k : Nat) : String :=
  let results := search st embed query language top_k
  if results.isEmpty then "No similar FAQs found."
  else joinSep "\n" ("Here are the most relevant FAQs:\n" :: renderBlocks 1 results)

/-! ### Derived forms of the search loop -/

/-- What one loop iteration contributes for candidate `c`: `none` when the
bounds check fails, the metadata lookup fails, or the language filter
rejects; otherwise the result row. -/
def candRow (mdata : List FaqMeta) (language : String) (c : Int × Int) :
    Option SearchResult :=
  if c.2 < (mdata.length : Int) then
    match pyGet mdata c.2 with
    | some faq =>
      if language ≠ "" ∧ faq.language ≠ language then none
      else some (mkResult faq c.1)
    | none => none
  else none

/-- The same contribution with the language test removed: used to state
that an empty language filter excludes no record. -/
def candRowNoLang (mdata : List FaqMeta) (c : Int × Int) : Option SearchResult :=
  if c.2 < (mdata.length : Int) then
    (pyGet mdata c.2).map (fun faq => mkResult faq c.1)
  else none

/-! ### The search algorithm as the spec words it

These definitions follow §4.2 of the spec, not the code: the candidates
are "the `2 × top_k` nearest Indexed Records" (no padding slots — only
records that exist), walked in ascending-distance order, keeping a record
when no filter is given or its language matches, stopping after `top_k`. -/

/-- Modelled from the spec: the `k` nearest indexed records (at most `k`
of the records that actually exist), ascending distance. -/
def specCandidates (vecs : List Vec) (q : Vec) (k : Nat) : List (Int × Int) :=
  (List.insertionSort candLE (distPairs vecs q)).take k

/-- Modelled from the spec: keep a candidate record when no language
filter is given or its language matches; score it by `1 / (1 + d)`. -/
def specKeep (mdata : List FaqMeta) (language : String) (c : Int × Int) :
    Option SearchResult :=
  match mdata.get? c.2.toNat with
  | some m =>
    if language = "" ∨ m.language = language then some (mkResult m c.1) else none
  | none => none

/-- Modelled from the spec, §4.2 steps 1–5: embed the query, take the
`2 × top_k` nearest indexed records, filter by language in
ascending-distance order, stop after `top_k`. -/
def specSearch (st : IndexState) (embed : String → Vec) (query : String)
    (language : String) (top_k : Nat) : List SearchResult :=
  ((specCandidates st.vectors (embed query) (top_k * 2)).filterMap
    (specKeep st.metadata language)).take top_k

/-! ### Concrete fixtures for witnesses and counterexamples -/

/-- English record of the sole corpus entry of the small fixture. -/
def wEnRec : FaqMeta := ⟨"1", "billing", "en", "How do I pay?", "Use the app."⟩

/-- Hindi record of the sole corpus entry of the small fixture. -/
def wHiRec : FaqMeta := ⟨"1", "billing", "hi", "kaise bhugtan", "app se"⟩

/-- A 2-record index (one bilingual entry): English vector `[0]`, Hindi
vector `[10]`. -/
def wIdx2 : IndexState := ⟨[[0], [10]], [wEnRec, wHiRec]⟩

/-- A 4-record index (two bilingual entries) whose English vectors crowd
the neighbourhood of the query `[0]`: vectors `[0], [10], [1], [11]` in
build order en, hi, en, hi. -/
def wIdx4 : IndexState :=
  ⟨[[0], [10], [1], [11]],
    [wEnRec, wHiRec, ⟨"2", "range", "en", "q2", "a2"⟩, ⟨"2", "range", "hi", "q2h", "a2h"⟩]⟩

/-- An index whose directory held empty collections. -/
def wIdxNil : IndexState := ⟨[], []⟩

/-- A constant embedding function mapping every text to `[0]`. -/
def wEmbed0 : String → Vec := fun _ => [0]

/-- An embedding function depending on the text (its length). -/
def wEmbedLen : String → Vec := fun s => [(s.length : Int)]

/-- A well-formed raw corpus entry. -/
def wGoodFaq : RawFaq :=
  [("id", "1"), ("category", "billing"), ("question_en", "How do I pay?"),
    ("answer_en", "Use the app."), ("question_hi", "kaise bhugtan"),
    ("answer_hi", "app se")]

/-- A raw entry whose `question_en` is present but empty. -/
def wEmptyFieldFaq : RawFaq :=
  [("id", "1"), ("category", "billing"), ("question_en", ""),
    ("answer_en", "Use the app."), ("question_hi", "kaise bhugtan"),
    ("answer_hi", "app se")]

/-- A raw entry with no `question_en` key at all. -/
def wMissingFieldFaq : RawFaq :=
  [("id", "1"), ("category", "billing"), ("answer_en", "Use the app."),
    ("question_hi", "kaise bhugtan"), ("answer_hi", "app se")]

/-- A second well-formed raw corpus entry with a distinct id. -/
def wGoodFaq2 : RawFaq :=
  [("id", "2"), ("category", "range"), ("question_en", "What is the range?"),
    ("answer_en", "300 km."), ("question_hi", "range kya"),
    ("answer_hi", "300 km")]

/-- `p` occurs verbatim (as a contiguous substring) in `s`. -/
def strInfix (p s : String) : Prop := p.data <:+: s.data

instance (p s : String) : Decidable (strInfix p s) :=
  List.decidableInfix p.data s.data

/-! ## Supporting lemmas -/

/-- The break-at-`top_k` loop equals filtering every candidate and
truncating to `top_k` (for a positive `top_k`). -/
theorem searchLoop_eq (mdata : List FaqMeta) (lang : String) :
    ∀ (cands : List (Int × Int)) (k : Nat), 0 < k →
      searchLoop mdata lang k cands = (cands.filterMap (candRow mdata lang)).take k
  | [], k, _ => by simp [searchLoop]
  | (d, i) :: rest, k, hk => by
    simp only [searchLoop, candRow, List.filterMap_cons]
    by_cases h1 : i < (mdata.length : Int)
    · simp only [if_pos h1]
      cases hp : pyGet mdata i with
      | none => simpa using searchLoop_eq mdata lang rest k hk
      | some faq =>
        by_cases h2 : lang ≠ "" ∧ faq.language ≠ lang
        · simpa [h2] using searchLoop_eq mdata lang rest k hk
        · simp only [if_neg h2]
          by_cases h3 : k ≤ 1
          · have hk1 : k = 1 := by omega
            subst hk1
            simp
          · rw [if_neg h3, searchLoop_eq mdata lang rest (k - 1) (by omega)]
            obtain ⟨k, rfl⟩ : ∃ m, k = m + 1 := ⟨k - 1, by omega⟩
            simp
    · simpa [h1] using searchLoop_eq mdata lang rest k hk

/-- A squared Euclidean distance is nonnegative. -/
theorem sqDist_nonneg (u v : Vec) : 0 ≤ sqDist u v := by
  unfold sqDist
  apply List.sum_nonneg
  intro x hx
  obtain ⟨p, _, rfl⟩ := List.mem_map.1 hx
  positivity

theorem distPairsAux_length (q : Vec) :
    ∀ (s : Nat) (vecs : List Vec), (distPairsAux q s vecs).length = vecs.length
  | _, [] => rfl
  | s, v :: rest => by simp [distPairsAux, distPairsAux_length q (s + 1) rest]

theorem distPairs_length (vecs : List Vec) (q : Vec) :
    (distPairs vecs q).length = vecs.length :=
  distPairsAux_length q 0 vecs

theorem mem_distPairsAux (q : Vec) :
    ∀ (s : Nat) (vecs : List Vec) (c : Int × Int), c ∈ distPairsAux q s vecs →
      ∃ j : Nat, ∃ hj : j < vecs.length,
        c = (sqDist q (vecs.get ⟨j, hj⟩), ((s + j : Nat) : Int))
  | _, [], _, h => by simp [distPairsAux] at h
  | s, v :: rest, c, h => by
    simp only [distPairsAux, List.mem_cons] at h
    rcases h with h | h
    · exact ⟨0, by simp, by simpa using h⟩
    · obtain ⟨j, hj, hc⟩ := mem_distPairsAux q (s + 1) rest c h
      exact ⟨j + 1, by simpa using hj, by simpa [Nat.add_assoc, Nat.add_comm 1 j] using hc⟩

/-- Every pair of `distPairs vecs q` is the true distance of a stored
vector together with its (nonnegative, in-range) label. -/
theorem mem_distPairs {vecs : List Vec} {q : Vec} {c : Int × Int}
    (h : c ∈ distPairs vecs q) :
    0 ≤ c.2 ∧ ∃ hj : c.2.toNat < vecs.length,
      c.1 = sqDist q (vecs.get ⟨c.2.toNat, hj⟩) := by
  obtain ⟨j, hj, rfl⟩ := mem_distPairsAux q 0 vecs c h
  simp only [Nat.zero_add]
  exact ⟨Int.ofNat_nonneg j, by simpa using hj, by simp⟩

/-- The sorted candidate list is sorted under `candLE`. -/
theorem sorted_candidates (vecs : List Vec) (q : Vec) :
    List.Sorted candLE (List.insertionSort candLE (distPairs vecs q)) :=
  List.sorted_insertionSort candLE (distPairs vecs q)

/-- Membership in the sorted candidate list is membership in the raw
distance pairs. -/
theorem mem_sorted_candidates {vecs : List Vec} {q : Vec} {c : Int × Int}
    (h : c ∈ List.insertionSort candLE (distPairs vecs q)) :
    c ∈ distPairs vecs q :=
  (List.perm_insertionSort candLE (distPairs vecs q)).mem_iff.1 h

/-- `kNearest` always returns exactly `k` slots, padding when needed. -/
theorem kNearest_length (vecs : List Vec) (q : Vec) (k : Nat) :
    (kNearest vecs q k).length = k := by
  simp only [kNearest, List.length_append, List.length_take, List.length_replicate,
    List.length_insertionSort, distPairs_length]
  omega

/-- With at least `k` stored vectors there is no padding: `kNearest` is
exactly the first `k` of the sorted candidates. -/
theorem kNearest_of_le {vecs : List Vec} {q : Vec} {k : Nat}
    (h : k ≤ vecs.length) :
    kNearest vecs q k = (List.insertionSort candLE (distPairs vecs q)).take k := by
  simp [kNearest, Nat.sub_eq_zero_of_le h]

/-- Every slot `kNearest` returns carries a nonnegative distance (real
distances are sums of squares; the padding distance is `FLT_MAX`). -/
theorem kNearest_dist_nonneg {vecs : List Vec} {q : Vec} {k : Nat}
    {c : Int × Int} (h : c ∈ kNearest vecs q k) : 0 ≤ c.1 := by
  rcases List.mem_append.1 h with h | h
  · obtain ⟨_, hj, hc⟩ := mem_distPairs (mem_sorted_candidates (List.mem_of_mem_take h))
    rw [hc]
    exact sqDist_nonneg _ _
  · have : c = (padDist, -1) := List.eq_of_mem_replicate h
    rw [this]
    norm_num [padDist]

/-- A successful Python indexing resolves to an element of the list. -/
theorem pyGet_mem {α : Type} {l : List α} {i : Int} {x : α}
    (h : pyGet l i = some x) : x ∈ l := by
  unfold pyGet at h
  split at h
  · exact List.get?_mem h
  · split at h
    · exact List.get?_mem h
    · cases h

/-- Python resolves index `-1` of a nonempty list to its last element. -/
theorem pyGet_neg_one {α : Type} {l : List α} (h : l ≠ []) :
    pyGet l (-1) = l.getLast? := by
  have hl : 1 ≤ l.length := by
    cases l with
    | nil => exact absurd rfl h
    | cons a t => simp
  unfold pyGet
  rw [if_neg (by omega), if_pos (by simpa using hl)]
  simp [List.getLast?_eq_getElem?, List.get?_eq_getElem?]

/-- With an empty language filter the loop's contribution keeps every
record that resolves. -/
theorem candRow_empty_lang (mdata : List FaqMeta) :
    candRow mdata "" = candRowNoLang mdata := by
  funext c
  unfold candRow candRowNoLang
  cases pyGet mdata c.2 <;> simp

/-- Provenance of a returned row: it came from a fetched candidate slot
whose index passed the bounds check and resolved to a metadata record
passing the language filter; its score is `1 / (1 + d)` for that slot's
reported distance `d ≥ 0`. -/
theorem mem_search {st : IndexState} {embed : String → Vec} {q L : String}
    {k : Nat} {r : SearchResult} (hk : 0 < k) (hr : r ∈ search st embed q L k) :
    ∃ c ∈ kNearest st.vectors (embed q) (k * 2), ∃ faq ∈ st.metadata,
      pyGet st.metadata c.2 = some faq ∧ (L ≠ "" → faq.language = L) ∧
      r = mkResult faq c.1 ∧ 0 ≤ c.1 := by
  rw [search, searchLoop_eq st.metadata L _ k hk] at hr
  obtain ⟨c, hc, hrow⟩ := List.mem_filterMap.1 (List.mem_of_mem_take hr)
  unfold candRow at hrow
  split at hrow
  · cases hp : pyGet st.metadata c.2 with
    | none => rw [hp] at hrow; cases hrow
    | some faq =>
      rw [hp] at hrow
      by_cases hcond : L ≠ "" ∧ faq.language ≠ L
      · simp [if_pos hcond] at hrow
      · simp only [if_neg hcond, Option.some.injEq] at hrow
        refine ⟨c, hc, faq, pyGet_mem hp, hp, ?_, hrow.symm, kNearest_dist_nonneg hc⟩
        intro hL
        by_contra hne
        exact hcond ⟨hL, hne⟩
  · cases hrow

/-- A per-entry build step succeeds exactly on the six required fields,
and its output is the English and Hindi vectors and metadata of the
entry's fields, the embedded text being question, one space, answer. -/
theorem buildEntry_ok {embed : String → Vec} {faq : RawFaq}
    {t : Vec × FaqMeta × Vec × FaqMeta} (h : buildEntry embed faq = .ok t) :
    ∃ qe ae fid cat qh ah,
      dictGet faq "question_en" = some qe ∧ dictGet faq "answer_en" = some ae ∧
      dictGet faq "id" = some fid ∧ dictGet faq "category" = some cat ∧
      dictGet faq "question_hi" = some qh ∧ dictGet faq "answer_hi" = some ah ∧
      t = (embed (qe ++ " " ++ ae), ⟨fid, cat, "en", qe, ae⟩,
        embed (qh ++ " " ++ ah), ⟨fid, cat, "hi", qh, ah⟩) := by
  unfold buildEntry at h
  cases h1 : dictGet faq "question_en" <;> rw [h1] at h
  · cases h
  cases h2 : dictGet faq "answer_en" <;> rw [h2] at h
  · cases h
  cases h3 : dictGet faq "id" <;> rw [h3] at h
  · cases h
  cases h4 : dictGet faq "category" <;> rw [h4] at h
  · cases h
  cases h5 : dictGet faq "question_hi" <;> rw [h5] at h
  · cases h
  cases h6 : dictGet faq "answer_hi" <;> rw [h6] at h
  · cases h
  exact ⟨_, _, _, _, _, _, rfl, rfl, rfl, rfl, rfl, rfl, (Except.ok.inj h).symm⟩

/-- A per-entry build step fails whenever one of the six required fields
is missing. -/
theorem buildEntry_error_of_missing {embed : String → Vec} {faq : RawFaq}
    {key : String}
    (hkey : key ∈ ["question_en", "answer_en", "id", "category", "question_hi", "answer_hi"])
    (hmiss : dictGet faq key = none) :
    ∃ e, buildEntry embed faq = .error e := by
  by_contra hok
  push_neg at hok
  cases hb : buildEntry embed faq with
  | error e => exact hok e hb
  | ok t =>
    obtain ⟨qe, ae, fid, cat, qh, ah, h1, h2, h3, h4, h5, h6, _⟩ := buildEntry_ok hb
    simp only [List.mem_cons, List.not_mem_nil, or_false] at hkey
    rcases hkey with rfl | rfl | rfl | rfl | rfl | rfl <;> simp_all

/-- Structure of a successful build: two records per corpus entry, in
corpus order, English before Hindi, vectors aligned with metadata. -/
theorem build_index_ok {embed : String → Vec} :
    ∀ {faqs : List RawFaq} {st : IndexState}, build_index embed faqs = .ok st →
      st.vectors.length = 2 * faqs.length ∧ st.metadata.length = 2 * faqs.length ∧
      ∀ i : Nat, ∀ hi : i < faqs.length,
        ∃ qe ae fid cat qh ah,
          dictGet (faqs.get ⟨i, hi⟩) "question_en" = some qe ∧
          dictGet (faqs.get ⟨i, hi⟩) "answer_en" = some ae ∧
          dictGet (faqs.get ⟨i, hi⟩) "id" = some fid ∧
          dictGet (faqs.get ⟨i, hi⟩) "category" = some cat ∧
          dictGet (faqs.get ⟨i, hi⟩) "question_hi" = some qh ∧
          dictGet (faqs.get ⟨i, hi⟩) "answer_hi" = some ah ∧
          st.metadata[2 * i]? = some ⟨fid, cat, "en", qe, ae⟩ ∧
          st.metadata[2 * i + 1]? = some ⟨fid, cat, "hi", qh, ah⟩ ∧
          st.vectors[2 * i]? = some (embed (qe ++ " " ++ ae)) ∧
          st.vectors[2 * i + 1]? = some (embed (qh ++ " " ++ ah)) := by
  intro faqs
  induction faqs with
  | nil =>
    intro st h
    simp only [build_index, Except.ok.injEq] at h
    subst h
    refine ⟨rfl, rfl, ?_⟩
    intro i hi
    simp at hi
  | cons faq rest ih =>
    intro st h
    simp only [build_index] at h
    cases hb : buildEntry embed faq with
    | error e => rw [hb] at h; cases h
    | ok t =>
      rw [hb] at h
      obtain ⟨ev, em, hv, hm⟩ := t
      cases hrest : build_index embed rest with
      | error e => rw [hrest] at h; cases h
      | ok st0 =>
        rw [hrest] at h
        simp only [Except.ok.injEq] at h
        subst h
        obtain ⟨hlv, hlm, hspec⟩ := ih hrest
        obtain ⟨qe, ae, fid, cat, qh, ah, h1, h2, h3, h4, h5, h6, ht⟩ := buildEntry_ok hb
        obtain ⟨rfl, rfl, rfl, rfl⟩ :
            ev = embed (qe ++ " " ++ ae) ∧ em = ⟨fid, cat, "en", qe, ae⟩ ∧
            hv = embed (qh ++ " " ++ ah) ∧ hm = ⟨fid, cat, "hi", qh, ah⟩ := by
          simpa [Prod.ext_iff] using ht
        refine ⟨by simp [hlv]; omega, by simp [hlm]; omega, ?_⟩
        intro i hi
        cases i with
        | zero =>
          refine ⟨qe, ae, fid, cat, qh, ah, h1, h2, h3, h4, h5, h6, ?_, ?_, ?_, ?_⟩ <;> simp
        | succ j =>
          have hj : j < rest.length := by simpa using hi
          obtain ⟨qe1, ae1, fid1, cat1, qh1, ah1, g1, g2, g3, g4, g5, g6, g7, g8, g9, g10⟩ :=
            hspec j hj
          have e1 : 2 * (j + 1) = 2 * j + 1 + 1 := by ring
          have e2 : 2 * (j + 1) + 1 = 2 * j + 1 + 1 + 1 := by ring
          refine ⟨qe1, ae1, fid1, cat1, qh1, ah1, g1, g2, g3, g4, g5, g6, ?_, ?_, ?_, ?_⟩
          · rw [e1]; simpa using g7
          · rw [e2]; simpa using g8
          · rw [e1]; simpa using g9
          · rw [e2]; simpa using g10

/-- Counting metadata records through a successful build: each corpus
entry contributes its English then its Hindi record. -/
theorem build_index_countP {embed : String → Vec} (p : FaqMeta → Bool)
    (g : RawFaq → Nat)
    (hg : ∀ faq t, buildEntry embed faq = .ok t →
      ((if p t.2.1 then 1 else 0) + (if p t.2.2.2 then 1 else 0) = g faq)) :
    ∀ {faqs : List RawFaq} {st : IndexState}, build_index embed faqs = .ok st →
      st.metadata.countP p = (faqs.map g).sum := by
  intro faqs
  induction faqs with
  | nil =>
    intro st h
    simp only [build_index, Except.ok.injEq] at h
    subst h
    simp
  | cons faq rest ih =>
    intro st h
    simp only [build_index] at h
    cases hb : buildEntry embed faq with
    | error e => rw [hb] at h; cases h
    | ok t =>
      rw [hb] at h
      obtain ⟨ev, em, hv, hm⟩ := t
      cases hrest : build_index embed rest with
      | error e => rw [hrest] at h; cases h
      | ok st0 =>
        rw [hrest] at h
        simp only [Except.ok.injEq] at h
        subst h
        have hcontrib := hg faq (ev, em, hv, hm) hb
        simp only at hcontrib
        simp only [List.map_cons, List.sum_cons, List.countP_cons, ih hrest]
        omega

/-- Summing a two-valued indicator over a list counts its hits. -/
theorem sum_map_ite {α : Type} (q : α → Bool) (c : Nat) (l : List α) :
    (l.map (fun a => if q a then c else 0)).sum = c * l.countP q := by
  induction l with
  | nil => simp
  | cons a t ih =>
    by_cases h : q a
    · simp [h, ih, List.countP_cons, Nat.mul_add]
      omega
    · simp [h, ih, List.countP_cons]

/-- When `g` is injective over `l` (its image has no duplicates) and `v`
is attained, exactly one element of `l` maps to `v`. -/
theorem countP_eq_one_of_nodup_map {α β : Type} [BEq β] [LawfulBEq β]
    (g : α → β) (v : β) :
    ∀ (l : List α), (l.map g).Nodup → v ∈ l.map g →
      l.countP (fun a => g a == v) = 1
  | [], _, hv => absurd hv (by simp)
  | a :: t, hnd, hv => by
    rw [List.map_cons, List.nodup_cons] at hnd
    obtain ⟨hna, hndt⟩ := hnd
    rcases List.mem_cons.1 hv with rfl | hv
    · rw [List.countP_cons]
      have hz : t.countP (fun x => g x == g a) = 0 := by
        rw [List.countP_eq_zero]
        intro x hx
        simp only [beq_iff_eq]
        intro hgx
        exact hna (hgx ▸ List.mem_map_of_mem g hx)
      simp [hz]
    · rw [List.countP_cons]
      have hne : ¬(g a == v) = true := by
        simp only [beq_iff_eq]
        intro hgv
        exact hna (hgv ▸ hv)
      rw [countP_eq_one_of_nodup_map g v t hndt hv]
      simp [hne]

/-- A missing required field on any corpus entry makes the whole build
fail (the `KeyError` propagates; nothing is skipped). -/
theorem build_index_fails_on_missing {embed : String → Vec} {faqs : List RawFaq}
    {faq : RawFaq} (hf : faq ∈ faqs) {key : String}
    (hkey : key ∈ ["question_en", "answer_en", "id", "category", "question_hi", "answer_hi"])
    (hmiss : dictGet faq key = none) :
    ∃ e, build_index embed faqs = .error e := by
  cases hb : build_index embed faqs with
  | error e => exact ⟨e, rfl⟩
  | ok st =>
    obtain ⟨⟨i, hi⟩, rfl⟩ := List.mem_iff_get.1 hf
    obtain ⟨-, -, hspec⟩ := build_index_ok hb
    obtain ⟨qe, ae, fid, cat, qh, ah, h1, h2, h3, h4, h5, h6, -⟩ := hspec i hi
    fin_cases hkey <;> simp_all

/-- Positional alignment of a successful build: the vector at any
position is the embedding of that position's metadata record's question
and answer, joined by one space. -/
theorem build_index_aligned {embed : String → Vec} {faqs : List RawFaq}
    {st : IndexState} (h : build_index embed faqs = .ok st) :
    ∀ j : Nat, j < st.metadata.length → ∃ m : FaqMeta,
      st.metadata[j]? = some m ∧
      st.vectors[j]? = some (embed (m.question ++ " " ++ m.answer)) := by
  intro j hj
  obtain ⟨hlv, hlm, hspec⟩ := build_index_ok h
  have hi : j / 2 < faqs.length := by omega
  obtain ⟨qe, ae, fid, cat, qh, ah, h1, h2, h3, h4, h5, h6, g7, g8, g9, g10⟩ :=
    hspec (j / 2) hi
  rcases Nat.even_or_odd j with he | ho
  · have hj2 : 2 * (j / 2) = j := by
      obtain ⟨c, hc⟩ := he
      omega
    rw [hj2] at g7 g9
    exact ⟨⟨fid, cat, "en", qe, ae⟩, g7, g9⟩
  · have hj2 : 2 * (j / 2) + 1 = j := by
      obtain ⟨c, hc⟩ := ho
      omega
    rw [hj2] at g8 g10
    exact ⟨⟨fid, cat, "hi", qh, ah⟩, g8, g10⟩

/-- A part of the joined list occurs verbatim in the join. -/
theorem strInfix_joinSep {s : String} (sep : String) :
    ∀ {parts : List String}, s ∈ parts → strInfix s (joinSep sep parts)
  | [], h => absurd h (List.not_mem_nil s)
  | [t], h => by
    have : s = t := by simpa using h
    subst this
    exact ⟨[], [], by simp [joinSep]⟩
  | t :: u :: rest, h => by
    rcases List.mem_cons.1 h with rfl | h
    · exact ⟨[], (sep ++ joinSep sep (u :: rest)).data, by simp [joinSep]⟩
    · obtain ⟨pre, post, hpp⟩ := strInfix_joinSep sep h
      exact ⟨(t ++ sep).data ++ pre, post, by simp [joinSep, ← hpp]⟩

/-- An infix of a part is an infix of the whole join. -/
theorem strInfix_of_mem_joinSep {x s : String} (sep : String) {parts : List String}
    (hmem : s ∈ parts) (hx : strInfix x s) : strInfix x (joinSep sep parts) :=
  List.IsInfix.trans hx (strInfix_joinSep sep hmem)

/-- Every result in the rendered tail owns a block whose four lines all
appear among the rendered parts. -/
theorem blockParts_mem_renderBlocks {r : SearchResult} :
    ∀ (results : List SearchResult) (j : Nat), r ∈ results →
      ∃ i : Nat, ∀ p ∈ blockParts i r, p ∈ renderBlocks j results
  | [], _, h => absurd h (List.not_mem_nil r)
  | t :: rest, j, h => by
    rcases List.mem_cons.1 h with rfl | h
    · exact ⟨j, fun p hp => by simp [renderBlocks, List.mem_append, hp]⟩
    · obtain ⟨i, hi⟩ := blockParts_mem_renderBlocks rest (j + 1) h
      exact ⟨i, fun p hp => by simp [renderBlocks, List.mem_append, hi p hp]⟩

/-! ## Claims -/

/-- C8: `load(index_location)` fails with an `IndexNotFound` error
whenever either the vector collection file or the metadata collection
file is absent; the engine never completes construction holding only one
of the two artifacts. -/
theorem C8_load_requires_both_artifacts (d : IndexDir) :
    (d.indexFile = none ∨ d.metadataFile = none →
      loadEngine d = .error .indexNotFound) ∧
    (∀ st, loadEngine d = .ok st →
      d.indexFile = some st.vectors ∧ d.metadataFile = some st.metadata) := by
  cases hI : d.indexFile with
  | none =>
    refine ⟨fun _ => by simp [loadEngine, hI], fun st h => ?_⟩
    simp [loadEngine, hI] at h
  | some vecs =>
    cases hM : d.metadataFile with
    | none =>
      refine ⟨fun _ => by simp [loadEngine, hI, hM], fun st h => ?_⟩
      simp [loadEngine, hI, hM] at h
    | some ms =>
      refine ⟨fun h => ?_, fun st h => ?_⟩
      · rcases h with h | h <;> simp_all
      · simp only [loadEngine, hI, hM, Except.ok.injEq] at h
        subst h
        simp [hI, hM]

/-- C8 witness: a directory holding the vector file but no metadata file
is refused. -/
theorem C8_witness :
    loadEngine ⟨some [[0]], none⟩ = .error .indexNotFound :=
  (C8_load_requires_both_artifacts ⟨some [[0]], none⟩).1 (Or.inr rfl)

/-- C10: the only bounds check on a candidate position is
`idx < len(metadata)`; the sentinel `-1` emitted by FAISS to pad a result
below `2 * top_k` vectors passes that check, is resolved through Python
negative indexing to the last metadata record, and produces an extra
result row from that record instead of being skipped: on the 2-record
index, `search` with `top_k = 3` returns three rows, the third being the
last record scored at the padding distance. -/
theorem C10_pad_index_resolves_to_last_record :
    ((-1 : Int) < (wIdx2.metadata.length : Int)) ∧
    pyGet wIdx2.metadata (-1) = some wHiRec ∧
    wIdx2.metadata.getLast? = some wHiRec ∧
    kNearest wIdx2.vectors (wEmbed0 "q") (3 * 2) =
      [(0, 0), (100, 1)] ++ List.replicate 4 (padDist, -1) ∧
    search wIdx2 wEmbed0 "q" "" 3 =
      [mkResult wEnRec 0, mkResult wHiRec 100, mkResult wHiRec padDist] := by
  refine ⟨by decide, rfl, rfl, rfl, rfl⟩

/-- C3: with a nonempty language filter `L` every returned record has
`language = L`; an `L` matched by no indexed record yields `[]`, not an
error; with an empty filter no record is excluded by language (the loop
keeps every candidate that resolves). -/
theorem C3_language_filter_correct (st : IndexState) (embed : String → Vec)
    (q L : String) (k : Nat) (hk : 0 < k) :
    (L ≠ "" → ∀ r ∈ search st embed q L k, r.language = L) ∧
    (L ≠ "" → (∀ m ∈ st.metadata, m.language ≠ L) → search st embed q L k = []) ∧
    (search st embed q "" k =
      ((kNearest st.vectors (embed q) (k * 2)).filterMap
        (candRowNoLang st.metadata)).take k) := by
  refine ⟨?_, ?_, ?_⟩
  · intro hL r hr
    obtain ⟨c, hc, faq, hfm, hp, hlang, rfl, hd⟩ := mem_search hk hr
    simpa [mkResult] using hlang hL
  · intro hL hnone
    by_contra hne
    obtain ⟨r, hr⟩ := List.exists_mem_of_ne_nil _ hne
    obtain ⟨c, hc, faq, hfm, hp, hlang, rfl, hd⟩ := mem_search hk hr
    exact hnone faq hfm (hlang hL)
  · rw [search, searchLoop_eq _ _ _ _ hk, candRow_empty_lang]

/-- C3 witness: the unsupported filter `fr` on the 4-record index returns
an empty list. -/
theorem C3_witness :
    (0 < 3 ∧ "fr" ≠ "" ∧ (∀ m ∈ wIdx4.metadata, m.language ≠ "fr")) ∧
    search wIdx4 wEmbed0 "q" "fr" 3 = [] :=
  ⟨⟨by decide, by decide, by decide⟩,
    (C3_language_filter_correct wIdx4 wEmbed0 "q" "fr" 3 (by decide)).2.1
      (by decide) (by decide)⟩

/-- C4 counterexample: on the 4-record index whose two English vectors
are nearest to the query, `search(q, "hi", 1)` fetches only the two
English candidates, filters both out and returns `[]`, although two
Hindi records exist in the index — refuting "empty only if fewer than 1
matching-language record exists in the entire index". -/
theorem C4_counterexample :
    search wIdx4 wEmbed0 "q" "hi" 1 = [] ∧
    wIdx4.metadata.countP (fun m => m.language == "hi") = 2 := by
  refine ⟨rfl, by decide⟩

/-- C4 amended: `len(search(q, L, k)) ≤ k` always; the result is empty
exactly when no candidate of the fetched `2 × top_k` window resolves to a
record passing the language filter (not: when no matching record exists
in the entire index). -/
theorem C4_result_bound (st : IndexState) (embed : String → Vec) (q L : String)
    (k : Nat) (hk : 0 < k) :
    (search st embed q L k).length ≤ k ∧
    (search st embed q L k = [] ↔
      ∀ c ∈ kNearest st.vectors (embed q) (k * 2),
        candRow st.metadata L c = none) := by
  rw [search, searchLoop_eq _ _ _ _ hk]
  constructor
  · rw [List.length_take]
    exact min_le_left _ _
  · rw [List.take_eq_nil_iff, List.filterMap_eq_nil_iff]
    have hk0 : k ≠ 0 := by omega
    simp [hk0]

/-- C4 witness: at most one result is returned for `top_k = 1`. -/
theorem C4_witness :
    0 < 1 ∧ (search wIdx4 wEmbed0 "q" "hi" 1).length ≤ 1 :=
  ⟨by decide, (C4_result_bound wIdx4 wEmbed0 "q" "hi" 1 (by decide)).1⟩

/-- The score of any row the loop keeps is `1 / (1 + d)` for the
candidate slot's reported distance `d`. -/
theorem candRow_score {mdata : List FaqMeta} {L : String} {c : Int × Int}
    {r : SearchResult} (h : candRow mdata L c = some r) :
    r.similarity_score = 1 / (1 + (c.1 : Rat)) := by
  unfold candRow at h
  split at h
  · cases hp : pyGet mdata c.2 with
    | none => rw [hp] at h; cases h
    | some faq =>
      rw [hp] at h
      by_cases hcond : L ≠ "" ∧ faq.language ≠ L
      · simp [if_pos hcond] at h
      · simp only [if_neg hcond, Option.some.injEq] at h
        rw [← h]
        rfl
  · cases h

/-- C2 counterexample: on the 2-record index with `top_k = 3`, the code
returns three rows (the FAISS padding slot resolves to the last record)
while the spec's walk over the at-most-`2 × top_k` nearest indexed
records returns two — so `search` does not implement the claimed
algorithm when the index holds fewer than `2 × top_k` records. -/
theorem C2_counterexample :
    (search wIdx2 wEmbed0 "q" "" 3).length = 3 ∧
    wIdx2.metadata.length = 2 ∧
    search wIdx2 wEmbed0 "q" "" 3 ≠ specSearch wIdx2 wEmbed0 "q" "" 3 :=
  ⟨rfl, rfl, fun h => absurd (congrArg List.length h) (by decide)⟩

/-- C2 amended: whenever the index holds at least `2 × top_k` records,
`search` is exactly the spec's over-fetch-and-filter algorithm: embed the
query, take the `2 × top_k` nearest records under squared Euclidean
distance, walk them in ascending-distance order keeping language matches
(all records when no filter is given), and stop after `top_k`. -/
theorem C2_search_matches_spec (st : IndexState) (embed : String → Vec)
    (q L : String) (k : Nat) (hk : 0 < k) (hn : k * 2 ≤ st.vectors.length)
    (hal : st.metadata.length = st.vectors.length) :
    search st embed q L k = specSearch st embed q L k := by
  rw [search, specSearch, specCandidates, searchLoop_eq _ _ _ _ hk, kNearest_of_le hn]
  congr 1
  apply List.filterMap_congr
  intro c hc
  obtain ⟨hc2, hjlt, hc1⟩ := mem_distPairs (mem_sorted_candidates (List.mem_of_mem_take hc))
  have hlen : c.2 < (st.metadata.length : Int) := by
    rw [hal]
    omega
  have hpy : pyGet st.metadata c.2 = st.metadata.get? c.2.toNat := by
    unfold pyGet
    rw [if_pos hc2]
  unfold candRow specKeep
  rw [if_pos hlen, hpy]
  cases hm : st.metadata.get? c.2.toNat with
  | none => rfl
  | some m =>
    by_cases hB : L = "" ∨ m.language = L
    · simp only [if_neg (show ¬(L ≠ "" ∧ m.language ≠ L) by tauto), if_pos hB]
    · simp only [if_pos (show L ≠ "" ∧ m.language ≠ L by tauto), if_neg hB]

/-- C2 witness: on the 4-record index with `top_k = 2` (no padding), the
code and the spec algorithm agree. -/
theorem C2_witness :
    (0 < 2 ∧ 2 * 2 ≤ wIdx4.vectors.length ∧
      wIdx4.metadata.length = wIdx4.vectors.length) ∧
    search wIdx4 wEmbed0 "q" "en" 2 = specSearch wIdx4 wEmbed0 "q" "en" 2 :=
  ⟨⟨by decide, by decide, rfl⟩,
    C2_search_matches_spec wIdx4 wEmbed0 "q" "en" 2 (by decide) (by decide) rfl⟩

/-- C5 counterexample: on the 2-record index with `top_k = 3`, a kept
row (produced from a FAISS padding slot) carries a similarity score that
is `1 / (1 + FLT_MAX)` — not `1 / (1 + d)` for the squared Euclidean
distance `d` of any indexed vector to the query, in particular not of
the record it displays. -/
theorem C5_counterexample :
    ∃ r ∈ search wIdx2 wEmbed0 "q" "" 3,
      ∀ i : Nat, ∀ hi : i < wIdx2.vectors.length,
        r.similarity_score ≠
          1 / (1 + ((sqDist (wEmbed0 "q") (wIdx2.vectors.get ⟨i, hi⟩) : Int) : Rat)) := by
  refine ⟨mkResult wHiRec padDist, ?_, ?_⟩
  · rw [(rfl : search wIdx2 wEmbed0 "q" "" 3 =
      [mkResult wEnRec 0, mkResult wHiRec 100, mkResult wHiRec padDist])]
    exact List.mem_cons_of_mem _ (List.mem_cons_of_mem _ (List.mem_cons_self _ _))
  · intro i hi
    have h2 : i < 2 := by simpa [wIdx2] using hi
    interval_cases i <;>
      simp only [mkResult, wIdx2, wEmbed0, List.get] <;>
      norm_num [sqDist, padDist]

/-- C5 amended: whenever the index holds at least `2 × top_k` records,
every kept record's similarity score is `1 / (1 + d)` for the record's
own squared Euclidean distance `d` to the query vector, every score lies
in `(0, 1]`, a score is `1` exactly when that distance is `0`, and the
returned scores are non-increasing. -/
theorem C5_score_range_and_order (st : IndexState) (embed : String → Vec)
    (q L : String) (k : Nat) (hk : 0 < k) (hn : k * 2 ≤ st.vectors.length)
    (hal : st.metadata.length = st.vectors.length) :
    (∀ r ∈ search st embed q L k, ∃ i : Nat, ∃ hi : i < st.vectors.length,
      ∃ hm : i < st.metadata.length,
      r = mkResult (st.metadata.get ⟨i, hm⟩)
        (sqDist (embed q) (st.vectors.get ⟨i, hi⟩)) ∧
      r.similarity_score =
        1 / (1 + ((sqDist (embed q) (st.vectors.get ⟨i, hi⟩) : Int) : Rat)) ∧
      0 < r.similarity_score ∧ r.similarity_score ≤ 1 ∧
      (r.similarity_score = 1 ↔ sqDist (embed q) (st.vectors.get ⟨i, hi⟩) = 0)) ∧
    (search st embed q L k).Pairwise
      (fun a b => b.similarity_score ≤ a.similarity_score) := by
  constructor
  · intro r hr
    obtain ⟨c, hc, faq, hfm, hp, hlang, hre, hd⟩ := mem_search hk hr
    rw [kNearest_of_le hn] at hc
    obtain ⟨hc2, hjlt, hc1⟩ := mem_distPairs (mem_sorted_candidates (List.mem_of_mem_take hc))
    have hm : c.2.toNat < st.metadata.length := by
      rw [hal]
      exact hjlt
    have hpy : st.metadata.get? c.2.toNat = some faq := by
      unfold pyGet at hp
      rw [if_pos hc2] at hp
      exact hp
    have hfaq : st.metadata.get ⟨c.2.toNat, hm⟩ = faq := by
      rw [List.get?_eq_getElem?, List.getElem?_eq_getElem hm] at hpy
      simpa [List.get_eq_getElem] using Option.some.inj hpy
    set d : Int := sqDist (embed q) (st.vectors.get ⟨c.2.toNat, hjlt⟩) with hdd
    have hd0 : 0 ≤ d := sqDist_nonneg _ _
    have hdr : (0 : Rat) ≤ (d : Rat) := by exact_mod_cast hd0
    have h1d : (0 : Rat) < 1 + (d : Rat) := by linarith
    have hscore : r.similarity_score = 1 / (1 + (d : Rat)) := by
      rw [hre, hc1]
      rfl
    refine ⟨c.2.toNat, hjlt, hm, ?_, hscore, ?_, ?_, ?_⟩
    · rw [hre, hfaq, hc1]
    · rw [hscore]
      exact div_pos one_pos h1d
    · rw [hscore]
      rw [div_le_one h1d]
      linarith
    · rw [hscore]
      rw [div_eq_one_iff_eq (ne_of_gt h1d)]
      constructor
      · intro h
        have : (d : Rat) = 0 := by linarith
        exact_mod_cast this
      · intro h
        have hd0' : d = 0 := hdd.trans h
        rw [hd0']
        norm_num
  · rw [search, searchLoop_eq _ _ _ _ hk, kNearest_of_le hn]
    apply List.Pairwise.sublist (List.take_sublist _ _)
    rw [List.pairwise_filterMap]
    have hsorted : List.Pairwise candLE
        ((List.insertionSort candLE (distPairs st.vectors (embed q))).take (k * 2)) :=
      List.Pairwise.sublist (List.take_sublist _ _) (sorted_candidates st.vectors (embed q))
    apply List.Pairwise.imp_of_mem ?_ hsorted
    intro a b ha hb hab x hx y hy
    have hxs := candRow_score (Option.mem_def.1 hx)
    have hys := candRow_score (Option.mem_def.1 hy)
    obtain ⟨ha2, hajlt, ha1⟩ := mem_distPairs (mem_sorted_candidates (List.mem_of_mem_take ha))
    have ha0 : (0 : Int) ≤ a.1 := ha1 ▸ sqDist_nonneg _ _
    have hab1 : a.1 ≤ b.1 := by
      rcases hab with h | ⟨h, -⟩
      · exact le_of_lt h
      · exact le_of_eq h
    rw [hxs, hys]
    have hpos : (0 : Rat) < 1 + (a.1 : Rat) := by
      have : (0 : Rat) ≤ (a.1 : Rat) := by exact_mod_cast ha0
      linarith
    apply one_div_le_one_div_of_le hpos
    have : (a.1 : Rat) ≤ (b.1 : Rat) := by exact_mod_cast hab1
    linarith

/-- C5 witness: with `top_k = 2` on the 4-record index the score
properties hold of the returned list. -/
theorem C5_witness :
    (0 < 2 ∧ 2 * 2 ≤ wIdx4.vectors.length ∧
      wIdx4.metadata.length = wIdx4.vectors.length) ∧
    (search wIdx4 wEmbed0 "q" "en" 2).Pairwise
      (fun a b => b.similarity_score ≤ a.similarity_score) :=
  ⟨⟨by decide, by decide, rfl⟩,
    (C5_score_range_and_order wIdx4 wEmbed0 "q" "en" 2 (by decide) (by decide) rfl).2⟩

/-- C6: `get_context_for_llm` calls `search` with the same arguments;
on an empty result it returns exactly the fixed sentinel string, and
otherwise a newline-joined numbered list of blocks in which every match's
category, question, and answer appear verbatim together with its score
rendered to two decimal places. -/
theorem C6_context_format (st : IndexState) (embed : String → Vec)
    (q L : String) (k : Nat) :
    (search st embed q L k = [] →
      get_context_for_llm st embed q L k = "No similar FAQs found.") ∧
    (search st embed q L k ≠ [] →
      get_context_for_llm st embed q L k =
        joinSep "\n" ("Here are the most relevant FAQs:\n" ::
          renderBlocks 1 (search st embed q L k))) ∧
    (∀ r ∈ search st embed q L k,
      strInfix r.category (get_context_for_llm st embed q L k) ∧
      strInfix r.question (get_context_for_llm st embed q L k) ∧
      strInfix r.answer (get_context_for_llm st embed q L k) ∧
      strInfix (formatScore r.similarity_score)
        (get_context_for_llm st embed q L k)) := by
  have hout : search st embed q L k ≠ [] →
      get_context_for_llm st embed q L k =
        joinSep "\n" ("Here are the most relevant FAQs:\n" ::
          renderBlocks 1 (search st embed q L k)) := by
    intro h
    cases hs : search st embed q L k with
    | nil => exact absurd hs h
    | cons a t => simp [get_context_for_llm, hs]
  refine ⟨?_, hout, ?_⟩
  · intro h
    simp [get_context_for_llm, h]
  · intro r hr
    rw [hout (List.ne_nil_of_mem hr)]
    obtain ⟨i, hparts⟩ := blockParts_mem_renderBlocks (search st embed q L k) 1 hr
    have hm1 : ("\n" ++ toString i ++ ". Category: " ++ r.category) ∈ blockParts i r := by
      simp [blockParts]
    have hm2 : ("   Q: " ++ r.question) ∈ blockParts i r := by
      simp [blockParts]
    have hm3 : ("   A: " ++ r.answer) ∈ blockParts i r := by
      simp [blockParts]
    have hm4 : ("   (Relevance: " ++ formatScore r.similarity_score ++ ")") ∈
        blockParts i r := by
      simp [blockParts]
    exact ⟨strInfix_of_mem_joinSep "\n" (List.mem_cons_of_mem _ (hparts _ hm1))
        ⟨("\n" ++ toString i ++ ". Category: ").data, [], by simp⟩,
      strInfix_of_mem_joinSep "\n" (List.mem_cons_of_mem _ (hparts _ hm2))
        ⟨("   Q: ").data, [], by simp⟩,
      strInfix_of_mem_joinSep "\n" (List.mem_cons_of_mem _ (hparts _ hm3))
        ⟨("   A: ").data, [], by simp⟩,
      strInfix_of_mem_joinSep "\n" (List.mem_cons_of_mem _ (hparts _ hm4))
        ⟨("   (Relevance: ").data, (")").data, by simp⟩⟩

/-- C6 witness: the empty index yields the sentinel, and on the 2-record
index the English question appears verbatim in the rendered context. -/
theorem C6_witness :
    (search wIdxNil wEmbed0 "x" "en" 3 = [] ∧
      get_context_for_llm wIdxNil wEmbed0 "x" "en" 3 = "No similar FAQs found.") ∧
    (mkResult wEnRec 0 ∈ search wIdx2 wEmbed0 "q" "en" 1 ∧
      strInfix (mkResult wEnRec 0).question
        (get_context_for_llm wIdx2 wEmbed0 "q" "en" 1)) :=
  ⟨⟨rfl, (C6_context_format wIdxNil wEmbed0 "x" "en" 3).1 rfl⟩,
    ⟨List.mem_cons_self _ _,
      ((C6_context_format wIdx2 wEmbed0 "q" "en" 1).2.2 _
        (List.mem_cons_self _ _)).2.1⟩⟩

/-- C7 counterexample: an entry whose `question_en` is present but empty
builds successfully and is indexed (no `MalformedEntry`-style failure for
empty fields exists in the code). -/
theorem C7_counterexample :
    dictGet wEmptyFieldFaq "question_en" = some "" ∧
    ∃ st : IndexState, build_index wEmbedLen [wEmptyFieldFaq] = .ok st ∧
      st.metadata.length = 2 * [wEmptyFieldFaq].length :=
  ⟨rfl, _, rfl, rfl⟩

/-- C7 amended: a corpus entry with a *missing* required field makes the
build fail (with a `KeyError`, the code's stand-in for `MalformedEntry`);
empty-string fields are not rejected; and no entry is silently skipped —
a successful build indexes every entry, two records each. -/
theorem C7_build_validation (embed : String → Vec) (faqs : List RawFaq) :
    (∀ faq ∈ faqs, ∀ key ∈ ["question_en", "answer_en", "id", "category",
        "question_hi", "answer_hi"], dictGet faq key = none →
      ∃ e, build_index embed faqs = .error e) ∧
    (∀ st, build_index embed faqs = .ok st →
      st.vectors.length = 2 * faqs.length ∧
      st.metadata.length = 2 * faqs.length) := by
  constructor
  · intro faq hf key hkey hmiss
    exact build_index_fails_on_missing hf hkey hmiss
  · intro st h
    obtain ⟨h1, h2, -⟩ := build_index_ok h
    exact ⟨h1, h2⟩

/-- C7 witness: a corpus whose only entry lacks `question_en` is refused. -/
theorem C7_witness :
    (wMissingFieldFaq ∈ [wMissingFieldFaq] ∧
      dictGet wMissingFieldFaq "question_en" = none) ∧
    ∃ e, build_index wEmbedLen [wMissingFieldFaq] = .error e :=
  ⟨⟨List.mem_cons_self _ _, rfl⟩,
    (C7_build_validation wEmbedLen [wMissingFieldFaq]).1 _
      (List.mem_cons_self _ _) "question_en" (by decide) rfl⟩

/-- C9: the text embedded for each entry and language is exactly that
language's question, one space, then that language's answer — no other
normalization. -/
theorem C9_embedding_text (embed : String → Vec) (faqs : List RawFaq)
    (st : IndexState) (h : build_index embed faqs = .ok st) :
    ∀ i : Nat, ∀ hi : i < faqs.length, ∃ qe ae qh ah,
      dictGet (faqs.get ⟨i, hi⟩) "question_en" = some qe ∧
      dictGet (faqs.get ⟨i, hi⟩) "answer_en" = some ae ∧
      dictGet (faqs.get ⟨i, hi⟩) "question_hi" = some qh ∧
      dictGet (faqs.get ⟨i, hi⟩) "answer_hi" = some ah ∧
      st.vectors[2 * i]? = some (embed (qe ++ " " ++ ae)) ∧
      st.vectors[2 * i + 1]? = some (embed (qh ++ " " ++ ah)) := by
  intro i hi
  obtain ⟨-, -, hspec⟩ := build_index_ok h
  obtain ⟨qe, ae, fid, cat, qh, ah, h1, h2, h3, h4, h5, h6, g7, g8, g9, g10⟩ := hspec i hi
  exact ⟨qe, ae, qh, ah, h1, h2, h5, h6, g9, g10⟩

/-- C9 witness: on a one-entry corpus the stored vectors are the
embeddings of exactly `question + " " + answer` per language. -/
theorem C9_witness :
    ∃ st : IndexState, build_index wEmbedLen [wGoodFaq] = .ok st ∧
      ∃ qe ae qh ah,
        dictGet ([wGoodFaq].get ⟨0, by decide⟩) "question_en" = some qe ∧
        dictGet ([wGoodFaq].get ⟨0, by decide⟩) "answer_en" = some ae ∧
        dictGet ([wGoodFaq].get ⟨0, by decide⟩) "question_hi" = some qh ∧
        dictGet ([wGoodFaq].get ⟨0, by decide⟩) "answer_hi" = some ah ∧
        st.vectors[2 * 0]? = some (wEmbedLen (qe ++ " " ++ ae)) ∧
        st.vectors[2 * 0 + 1]? = some (wEmbedLen (qh ++ " " ++ ah)) :=
  ⟨_, rfl, C9_embedding_text wEmbedLen [wGoodFaq] _ rfl 0 (by decide)⟩

/-- C1 counterexample: the builder never checks id uniqueness, so a
corpus repeating one entry builds successfully with four records sharing
the source id `"1"` — refuting "exactly two records share each source
id" for arbitrary corpora. -/
theorem C1_counterexample :
    [wGoodFaq, wGoodFaq] ≠ [] ∧
    ∃ st : IndexState, build_index wEmbedLen [wGoodFaq, wGoodFaq] = .ok st ∧
      st.metadata.countP (fun m => m.id == "1") = 4 :=
  ⟨by decide, _, rfl, by decide⟩

/-- C1 amended: for a successful build over a non-empty corpus whose
entries carry pairwise-distinct ids, the artifact satisfies the
alignment invariant: both sequences have length `2 * len(corpus)`;
entry `i` yields its English record at position `2i` and its Hindi
record at position `2i + 1`, exactly two records (one per language)
share each entry's id, both with that entry's category; and position `j`
of the vector sequence is the embedding of position `j`'s metadata
record. -/
theorem C1_alignment_invariant (embed : String → Vec) (faqs : List RawFaq)
    (st : IndexState) (h : build_index embed faqs = .ok st) (_hne : faqs ≠ [])
    (hids : (faqs.map (fun f => dictGet f "id")).Nodup) :
    st.vectors.length = 2 * faqs.length ∧ st.metadata.length = 2 * faqs.length ∧
    (∀ i : Nat, ∀ hi : i < faqs.length, ∃ qe ae fid cat qh ah,
      dictGet (faqs.get ⟨i, hi⟩) "question_en" = some qe ∧
      dictGet (faqs.get ⟨i, hi⟩) "answer_en" = some ae ∧
      dictGet (faqs.get ⟨i, hi⟩) "id" = some fid ∧
      dictGet (faqs.get ⟨i, hi⟩) "category" = some cat ∧
      dictGet (faqs.get ⟨i, hi⟩) "question_hi" = some qh ∧
      dictGet (faqs.get ⟨i, hi⟩) "answer_hi" = some ah ∧
      st.metadata[2 * i]? = some ⟨fid, cat, "en", qe, ae⟩ ∧
      st.metadata[2 * i + 1]? = some ⟨fid, cat, "hi", qh, ah⟩ ∧
      st.metadata.countP (fun m => m.id == fid) = 2 ∧
      st.metadata.countP (fun m => m.id == fid && m.language == "en") = 1 ∧
      st.metadata.countP (fun m => m.id == fid && m.language == "hi") = 1) ∧
    (∀ j : Nat, j < st.metadata.length → ∃ m : FaqMeta,
      st.metadata[j]? = some m ∧
      st.vectors[j]? = some (embed (m.question ++ " " ++ m.answer))) := by
  obtain ⟨hlv, hlm, hspec⟩ := build_index_ok h
  refine ⟨hlv, hlm, ?_, build_index_aligned h⟩
  intro i hi
  obtain ⟨qe, ae, fid, cat, qh, ah, h1, h2, h3, h4, h5, h6, g7, g8, g9, g10⟩ := hspec i hi
  have hcount1 : faqs.countP (fun f => dictGet f "id" == some fid) = 1 := by
    have hmem : some fid ∈ faqs.map (fun f => dictGet f "id") :=
      List.mem_map.2 ⟨faqs.get ⟨i, hi⟩, List.get_mem _ _ _, h3⟩
    exact countP_eq_one_of_nodup_map (fun f => dictGet f "id") (some fid) faqs hids hmem
  have hg_id : ∀ faq t, buildEntry embed faq = .ok t →
      ((if (t.2.1.id == fid) = true then 1 else 0) +
        (if (t.2.2.2.id == fid) = true then 1 else 0) =
        if (dictGet faq "id" == some fid) = true then 2 else 0) := by
    intro faq t ht
    obtain ⟨qe1, ae1, fid1, cat1, qh1, ah1, k1, k2, k3, k4, k5, k6, rfl⟩ := buildEntry_ok ht
    rw [k3]
    by_cases hf : fid1 = fid
    · subst hf
      simp
    · simp [hf]
  have hc_id : st.metadata.countP (fun m => m.id == fid) = 2 := by
    rw [build_index_countP (fun m => m.id == fid)
        (fun f => if (dictGet f "id" == some fid) = true then 2 else 0) hg_id h,
      sum_map_ite (fun f => dictGet f "id" == some fid) 2 faqs, hcount1]
  have hg_en : ∀ faq t, buildEntry embed faq = .ok t →
      ((if (t.2.1.id == fid && t.2.1.language == "en") = true then 1 else 0) +
        (if (t.2.2.2.id == fid && t.2.2.2.language == "en") = true then 1 else 0) =
        if (dictGet faq "id" == some fid) = true then 1 else 0) := by
    intro faq t ht
    obtain ⟨qe1, ae1, fid1, cat1, qh1, ah1, k1, k2, k3, k4, k5, k6, rfl⟩ := buildEntry_ok ht
    rw [k3]
    by_cases hf : fid1 = fid
    · subst hf
      simp
    · simp [hf]
  have hc_en : st.metadata.countP (fun m => m.id == fid && m.language == "en") = 1 := by
    rw [build_index_countP (fun m => m.id == fid && m.language == "en")
        (fun f => if (dictGet f "id" == some fid) = true then 1 else 0) hg_en h,
      sum_map_ite (fun f => dictGet f "id" == some fid) 1 faqs, hcount1]
  have hg_hi : ∀ faq t, buildEntry embed faq = .ok t →
      ((if (t.2.1.id == fid && t.2.1.language == "hi") = true then 1 else 0) +
        (if (t.2.2.2.id == fid && t.2.2.2.language == "hi") = true then 1 else 0) =
        if (dictGet faq "id" == some fid) = true then 1 else 0) := by
    intro faq t ht
    obtain ⟨qe1, ae1, fid1, cat1, qh1, ah1, k1, k2, k3, k4, k5, k6, rfl⟩ := buildEntry_ok ht
    rw [k3]
    by_cases hf : fid1 = fid
    · subst hf
      simp
    · simp [hf]
  have hc_hi : st.metadata.countP (fun m => m.id == fid && m.language == "hi") = 1 := by
    rw [build_index_countP (fun m => m.id == fid && m.language == "hi")
        (fun f => if (dictGet f "id" == some fid) = true then 1 else 0) hg_hi h,
      sum_map_ite (fun f => dictGet f "id" == some fid) 1 faqs, hcount1]
  exact ⟨qe, ae, fid, cat, qh, ah, h1, h2, h3, h4, h5, h6, g7, g8, hc_id, hc_en, hc_hi⟩

/-- C1 witness: a two-entry corpus with distinct ids builds into a
4-position artifact with exactly two records per id. -/
theorem C1_witness :
    ([wGoodFaq, wGoodFaq2] ≠ [] ∧
      ([wGoodFaq, wGoodFaq2].map (fun f => dictGet f "id")).Nodup) ∧
    ∃ st : IndexState, build_index wEmbedLen [wGoodFaq, wGoodFaq2] = .ok st ∧
      st.vectors.length = 2 * 2 ∧ st.metadata.length = 2 * 2 ∧
      st.metadata.countP (fun m => m.id == "1") = 2 := by
  refine ⟨⟨by decide, by decide⟩, _, rfl, ?_⟩
  have hmain := C1_alignment_invariant wEmbedLen [wGoodFaq, wGoodFaq2] _ rfl
    (by decide) (by decide)
  refine ⟨hmain.1, hmain.2.1, ?_⟩
  obtain ⟨qe, ae, fid, cat, qh, ah, h1, h2, h3, h4, h5, h6, g7, g8, c1, c2, c3⟩ :=
    hmain.2.2.1 0 (by decide)
  have hfid : fid = "1" := by
    have hv : dictGet ([wGoodFaq, wGoodFaq2].get ⟨0, by decide⟩) "id" = some "1" := rfl
    rw [hv] at h3
    exact (Option.some.inj h3).symm
  subst hfid
  exact c1

end EVFaq
